import Mathlib

/-!
Verification of the zarban-go SDK core behaviors: the response classifier
(`service/utils.go` `HandleAPIResponse`), the native amount converter
(`toNative` in the example programs), the step-wise transaction executor
loops (`CreateVaultExample`, `VaultDebtRepayExample`), the transaction log
(`SaveTransactionDetails` and the patch-last-vault-id block), the receipt
wait loop (`waitForTransactionReceipt`), and the vault-id extractor
(`getVaultId`).

Go values are embedded as follows: `int`/`int64`/`*big.Int` as `ℤ`,
`uint64` as `ℕ`, `float64` values as the exact rational they denote,
strings as `String`, JSON documents as an inductive `Json` value type,
maps as association lists in insertion order, and fallible operations as
`Option`/`Except`.
-/

/- ## JSON value model

`encoding/json` operates on byte strings; we model a parsed JSON document
as a value of this inductive type.  A response body is carried together
with its parse result (`HTTPBody` below): `json = none` means the bytes
are not well-formed JSON, in which case every `json.Unmarshal` call on
them fails. -/

inductive Json where
  | null
  | bool (b : Bool)
  | num (n : ℤ)
  | str (s : String)
  | arr (elems : List Json)
  | obj (fields : List (String × Json))

/-- Field lookup in a JSON object.  Go's `encoding/json` lets a later
duplicate key overwrite an earlier one, so the lookup scans from the
right. -/
def jLookup (fields : List (String × Json)) (k : String) : Option Json :=
  (fields.reverse.find? (fun p => p.1 == k)).map Prod.snd

/-- Unmarshalling a JSON value into a Go `string` field: an absent field
or JSON `null` leaves the zero value `""` (no error); any non-string
JSON value is a type mismatch and fails. -/
def decStringField : Option Json → Option String
  | none => some ""
  | some Json.null => some ""
  | some (Json.str s) => some s
  | some _ => none

/-- Element-wise traversal returning `none` as soon as one element fails,
mirroring `json.Unmarshal` failing on the first mismatched element. -/
def optionMapList (f : α → Option β) : List α → Option (List β)
  | [] => some []
  | a :: as' =>
    match f a, optionMapList f as' with
    | some b, some bs => some (b :: bs)
    | _, _ => none

/-- Unmarshalling one element of a Go `[]string`: `null` yields the zero
value `""`, a string yields itself, anything else fails. -/
def decStrElem : Json → Option String
  | Json.null => some ""
  | Json.str s => some s
  | _ => none

/-- Unmarshalling a JSON value into a Go `[]string` field: absent or
`null` gives the nil slice, an array decodes element-wise, anything else
fails. -/
def decStringListField : Option Json → Option (List String)
  | none => some []
  | some Json.null => some []
  | some (Json.arr xs) => optionMapList decStrElem xs
  | some _ => none

/- ## Error body shapes

Modelled from the spec: the generated model types `UserError` and `Error`
are not under `src/`; their wire shapes are
`{"messages": {"<locale>": {"userMessage": string, "solutions": [string, ...]}, ...}}`
and `{"msg": string, "reasons": [string, ...]}` respectively.  The
`Messages` map is kept as an association list in document order. -/

structure ErrorDetail where
  userMessage : String
  solutions : List String
deriving DecidableEq

structure UserError where
  messages : List (String × ErrorDetail)
deriving DecidableEq

structure GenericError where
  msg : String
  reasons : List String
deriving DecidableEq

/-- `json.Unmarshal` into the `ErrorDetail` struct: must be an object (or
`null`, which leaves the zero value); unknown fields are ignored. -/
def decodeErrorDetail : Json → Option ErrorDetail
  | Json.obj fs =>
    match decStringField (jLookup fs "userMessage"),
          decStringListField (jLookup fs "solutions") with
    | some um, some sols => some ⟨um, sols⟩
    | _, _ => none
  | Json.null => some ⟨"", []⟩
  | _ => none

/-- Unmarshalling the `messages` field (a Go `map[string]ErrorDetail`):
absent or `null` leaves the nil map, an object decodes every value,
anything else fails. -/
def decodeMessages : Option Json → Option (List (String × ErrorDetail))
  | none => some []
  | some Json.null => some []
  | some (Json.obj fs) =>
    optionMapList (fun p => (decodeErrorDetail p.2).map (fun d => (p.1, d))) fs
  | some _ => none

/-- `json.Unmarshal` into `UserError`. -/
def decodeUserError : Json → Option UserError
  | Json.obj fs => (decodeMessages (jLookup fs "messages")).map UserError.mk
  | Json.null => some ⟨[]⟩
  | _ => none

/-- `json.Unmarshal` into the generic `Error` shape. -/
def decodeGenericError : Json → Option GenericError
  | Json.obj fs =>
    match decStringField (jLookup fs "msg"),
          decStringListField (jLookup fs "reasons") with
    | some m, some rs => some ⟨m, rs⟩
    | _, _ => none
  | Json.null => some ⟨"", []⟩
  | _ => none

/- ## Response classifier (src/service/utils.go, HandleAPIResponse) -/

/-- The `Details interface{}` field of `APIError`: either the decoded
`UserError`, the decoded generic `Error`, the text of a JSON decoding
error (success-status body that failed to parse; the exact message text
of `err.Error()` is not modelled), or the raw body bytes as text. -/
inductive ErrorDetails where
  | user (u : UserError)
  | generic (g : GenericError)
  | decodeFailure
  | raw (s : String)
deriving DecidableEq

/-- `service.APIError` (the fields the classification logic populates;
`RequestID`/`Path`/`Method` are copied from the request unchanged and are
omitted). -/
structure APIError where
  statusCode : ℤ
  message : String
  details : ErrorDetails
deriving DecidableEq

/-- Outcome of `HandleAPIResponse`: either the success value written
through the `successResponse` pointer with a `nil` error, or a returned
`*APIError`. -/
inductive HandleResult (T : Type) where
  | success (value : T)
  | failure (e : APIError)

/-- An HTTP response body: the raw bytes as text, together with the
result of parsing them as JSON (`none` when not well-formed). -/
structure HTTPBody where
  text : String
  json : Option Json

/-- The generic-error and fallback steps of `HandleAPIResponse`
(src/service/utils.go lines 124-134): a body that unmarshals as the
generic `Error` shape with a non-empty `Msg` yields that message and the
decoded value; otherwise the raw body text is attached verbatim under the
message "Unhandled error". -/
def classifyGeneric (status : ℤ) (body : HTTPBody) : APIError :=
  match body.json.bind decodeGenericError with
  | some g =>
    if g.msg ≠ "" then ⟨status, g.msg, ErrorDetails.generic g⟩
    else ⟨status, "Unhandled error", ErrorDetails.raw body.text⟩
  | none => ⟨status, "Unhandled error", ErrorDetails.raw body.text⟩

/-- `HandleAPIResponse` (src/service/utils.go lines 64-135) after the
body bytes have been read successfully.  `dec` is `json.Unmarshal` into
the expected success type `T`.  Status codes in `[200,300)` decode the
body as `T` (failure is the fatal "failed to parse success response"
error); other statuses try the `UserError` shape (taken only when at
least one localized message is present), then the generic `Error` shape
(taken only when `Msg` is non-empty), then fall back to the raw body. -/
def handleAPIResponse {T : Type} (dec : Json → Option T) (status : ℤ)
    (body : HTTPBody) : HandleResult T :=
  if 200 ≤ status ∧ status < 300 then
    match body.json.bind dec with
    | some t => HandleResult.success t
    | none =>
      HandleResult.failure
        ⟨status, "failed to parse success response", ErrorDetails.decodeFailure⟩
  else
    match body.json.bind decodeUserError with
    | some u =>
      if 0 < u.messages.length then
        HandleResult.failure ⟨status, "User error", ErrorDetails.user u⟩
      else HandleResult.failure (classifyGeneric status body)
    | none => HandleResult.failure (classifyGeneric status body)

/-- C5: for every response with status ≥ 300, classification applies in
this fixed order: a body decoding as the `UserError` shape with at least
one localized message yields a `UserError` carrying the full mapping
unchanged; otherwise a body decoding as the generic shape with non-empty
`msg` yields an `APIError` carrying that `msg` and the full `reasons`
list; otherwise the result is the "Unhandled error" carrying exactly the
raw body text. -/
theorem handleAPIResponse_error_classification {T : Type}
    (dec : Json → Option T) (status : ℤ) (body : HTTPBody)
    (h : 300 ≤ status) :
    (∀ u, body.json.bind decodeUserError = some u → 0 < u.messages.length →
      handleAPIResponse dec status body =
        HandleResult.failure ⟨status, "User error", ErrorDetails.user u⟩) ∧
    (∀ g, (body.json.bind decodeUserError = none ∨
           ∃ u, body.json.bind decodeUserError = some u ∧ u.messages.length = 0) →
      body.json.bind decodeGenericError = some g → g.msg ≠ "" →
      handleAPIResponse dec status body =
        HandleResult.failure ⟨status, g.msg, ErrorDetails.generic g⟩) ∧
    ((body.json.bind decodeUserError = none ∨
      ∃ u, body.json.bind decodeUserError = some u ∧ u.messages.length = 0) →
     (body.json.bind decodeGenericError = none ∨
      ∃ g, body.json.bind decodeGenericError = some g ∧ g.msg = "") →
      handleAPIResponse dec status body =
        HandleResult.failure ⟨status, "Unhandled error", ErrorDetails.raw body.text⟩) := by
  have hns : ¬(200 ≤ status ∧ status < 300) := by omega
  refine ⟨?_, ?_, ?_⟩
  · intro u hu hlen
    simp [handleAPIResponse, hns, hu, hlen]
  · intro g huser hg hmsg
    rcases huser with hnone | ⟨u, hu, hlen⟩
    · simp [handleAPIResponse, hns, hnone, classifyGeneric, hg, hmsg]
    · simp [handleAPIResponse, hns, hu, hlen, classifyGeneric, hg, hmsg]
  · intro huser hgen
    have hgen' : classifyGeneric status body =
        ⟨status, "Unhandled error", ErrorDetails.raw body.text⟩ := by
      rcases hgen with hnone | ⟨g, hg, hmsg⟩
      · simp [classifyGeneric, hnone]
      · simp [classifyGeneric, hg, hmsg]
    rcases huser with hnone | ⟨u, hu, hlen⟩
    · simp [handleAPIResponse, hns, hnone, hgen']
    · simp [handleAPIResponse, hns, hu, hlen, hgen']

/-- Witness for C5: a status-400 body in the `UserError` shape is
classified as "User error" with the mapping preserved. -/
theorem handleAPIResponse_error_classification_witness :
    300 ≤ (400 : ℤ) ∧
    handleAPIResponse (T := Unit) (fun _ => none) 400
      ⟨"irrelevant",
       some (Json.obj [("messages",
         Json.obj [("en-US", Json.obj [("userMessage", Json.str "bad input"),
                                       ("solutions", Json.arr [Json.str "fix it"])])])])⟩ =
      HandleResult.failure
        ⟨400, "User error",
         ErrorDetails.user ⟨[("en-US", ⟨"bad input", ["fix it"]⟩)]⟩⟩ := by
  refine ⟨by norm_num, ?_⟩
  exact (handleAPIResponse_error_classification (fun _ => none) 400 _
    (by norm_num)).1 ⟨[("en-US", ⟨"bad input", ["fix it"]⟩)]⟩ rfl (by decide)

/-- C6: for a status in `[200,300)`, a body that decodes as the expected
success type fills the caller's success value and returns no error; a
success-status body that fails to decode yields the fatal
"failed to parse success response" error. -/
theorem handleAPIResponse_success {T : Type} (dec : Json → Option T)
    (status : ℤ) (body : HTTPBody) (h1 : 200 ≤ status) (h2 : status < 300) :
    (∀ t, body.json.bind dec = some t →
      handleAPIResponse dec status body = HandleResult.success t) ∧
    (body.json.bind dec = none →
      handleAPIResponse dec status body =
        HandleResult.failure
          ⟨status, "failed to parse success response", ErrorDetails.decodeFailure⟩) := by
  constructor
  · intro t ht
    simp [handleAPIResponse, h1, h2, ht]
  · intro ht
    simp [handleAPIResponse, h1, h2, ht]

/-- Witness for C6: a status-200 body `{"msg": "ok"}` decoded with the
generic decoder succeeds with the decoded value. -/
theorem handleAPIResponse_success_witness :
    200 ≤ (200 : ℤ) ∧ (200 : ℤ) < 300 ∧
    handleAPIResponse decodeGenericError 200
      ⟨"irrelevant", some (Json.obj [("msg", Json.str "ok")])⟩ =
      HandleResult.success ⟨"ok", []⟩ := by
  refine ⟨by norm_num, by norm_num, ?_⟩
  exact (handleAPIResponse_success decodeGenericError 200 _
    (by norm_num) (by norm_num)).1 ⟨"ok", []⟩ rfl

/- ## Native amount converter (toNative)

`toNative` (src/unnamed/part_008, lines 816-832, and identically as the
arithmetic core of the symbol-checking variant at lines 330-365, whose
`precision` map sends every known symbol to 18) computes:

    scaledAmount := new(big.Int)
    floatAmount  := new(big.Float).SetFloat64(amount)
    scale        := new(big.Float).SetFloat64(math.Pow10(18))
    floatAmount.Mul(floatAmount, scale)
    if _, accuracy := floatAmount.Int(scaledAmount); accuracy != big.Exact {
        return nil, fmt.Errorf("lost precision during conversion")
    }
    return scaledAmount.String()

Semantics of each step, as embedded below:
* `SetFloat64` on a fresh `big.Float` sets the precision to 53 bits and
  stores the `float64` argument exactly; a finite `float64` amount is
  embedded as the rational number it denotes (`amount : ℚ`).
* `math.Pow10(18)` is exactly `10^18` (its 38-bit significand fits a
  `float64`), so `scale` holds `10^18` exactly.
* `Mul` computes the exact product and rounds it to the receiver's 53-bit
  precision with the default `ToNearestEven` mode.  The exact product is
  the rational `amount * 10^18 = (amount.num.natAbs * 10^18) / amount.den`
  for non-negative amounts; the rounding is computed below on that
  numerator/denominator pair (`pairRound53`), producing a 53-bit mantissa
  and a binary exponent.
* `Int` reports `big.Exact` precisely when the (already rounded) value is
  an integer, in which case `scaledAmount` holds it; `String` renders the
  minimal decimal representation, with a leading `-` for negatives.  The
  sign is handled by symmetry (`big.Float` rounds negative values to the
  negation of the rounding of the absolute value). -/

/-- `log2fuel f n` computes the floor of the base-2 logarithm of `n`
(by repeated halving), provided `n ≤ f`; fuel makes the recursion
structural. -/
def log2fuel : ℕ → ℕ → ℕ
  | 0, _ => 0
  | f + 1, n => if 2 ≤ n then log2fuel f (n / 2) + 1 else 0

/-- Floor of the base-2 logarithm of a positive natural (0 for 0). -/
def natLog2 (n : ℕ) : ℕ := log2fuel n n

/-- Floor of the base-2 logarithm of the positive rational `n / d`.  The
bit-length difference of numerator and denominator is correct up to one,
and one comparison (`2^a ≤ n/d`, cleared of the division) settles it. -/
def pairFloorLog2 (n d : ℕ) : ℤ :=
  let a : ℤ := (natLog2 n : ℤ) - (natLog2 d : ℤ)
  if 0 ≤ a then (if 2 ^ a.toNat * d ≤ n then a else a - 1)
  else (if d ≤ 2 ^ (-a).toNat * n then a else a - 1)

/-- Round the non-negative rational `n / d` to the nearest integer, ties
to even (the `big.Float` default rounding mode). -/
def pairRoundNE (n d : ℕ) : ℕ :=
  let f := n / d
  let r := n % d
  if 2 * r < d then f else if d < 2 * r then f + 1 else if f % 2 = 0 then f else f + 1

/-- Round the non-negative rational `n / d` to 53 significant bits,
nearest-even (the `Mul` step of `toNative`): the result is a mantissa `R`
and exponent `t` with value `R * 2^t`, where the mantissa is the rounding
of `(n/d) / 2^(E-52)` for `E` the floor of the base-2 logarithm. -/
def pairRound53 (n d : ℕ) : ℕ × ℤ :=
  let E := pairFloorLog2 n d
  if 52 ≤ E then
    ⟨pairRoundNE n (d * 2 ^ (E - 52).toNat), E - 52⟩
  else
    ⟨pairRoundNE (n * 2 ^ (52 - E).toNat) d, E - 52⟩

/-- The `big.Float.Int` conversion applied to the value `R * 2^t`:
`some` of the integer when the value is integral (`accuracy == big.Exact`),
`none` otherwise (the "lost precision during conversion" error). -/
def pow2IntVal (R : ℕ) (t : ℤ) : Option ℕ :=
  if 0 ≤ t then some (R * 2 ^ t.toNat)
  else if R % 2 ^ (-t).toNat = 0 then some (R / 2 ^ (-t).toNat) else none

/-- `big.Int.String`: minimal decimal representation, `-`-prefixed for
negative values. -/
def intString (n : ℤ) : String :=
  if n < 0 then "-" ++ Nat.repr n.natAbs else Nat.repr n.natAbs

/-- The amount converter `toNative` at 18 decimals (every known symbol has
18 decimals): round `amount * 10^18` to 53-bit `big.Float` precision, then
return its decimal string if the rounded product is an exact integer and
the PrecisionLoss error (`none`) otherwise. -/
def toNative18 (amount : ℚ) : Option String :=
  let N := amount.num.natAbs * 10 ^ 18
  let D := amount.den
  let RT := pairRound53 N D
  match pow2IntVal RT.1 RT.2 with
  | none => none
  | some v => some (intString (if amount.num < 0 then -(v : ℤ) else (v : ℤ)))

theorem log2fuel_le (f : ℕ) : ∀ n, 0 < n → n ≤ f → 2 ^ log2fuel f n ≤ n := by
  induction f with
  | zero => intro n h1 h2; omega
  | succ f ih =>
    intro n h1 h2
    rw [log2fuel]
    by_cases h : 2 ≤ n
    · simp only [h, if_true]
      have hrec := ih (n / 2) (by omega) (by omega)
      calc 2 ^ (log2fuel f (n / 2) + 1) = 2 ^ log2fuel f (n / 2) * 2 := by ring
        _ ≤ (n / 2) * 2 := by omega
        _ ≤ n := by omega
    · simp only [h, if_false]
      omega

theorem log2fuel_lt (f : ℕ) : ∀ n, n ≤ f → n < 2 ^ (log2fuel f n + 1) := by
  induction f with
  | zero =>
    intro n h2
    have : n = 0 := by omega
    subst this
    simp [log2fuel]
  | succ f ih =>
    intro n h2
    rw [log2fuel]
    by_cases h : 2 ≤ n
    · simp only [h, if_true]
      have hrec := ih (n / 2) (by omega)
      have : n / 2 + 1 ≤ 2 ^ (log2fuel f (n / 2) + 1) := hrec
      calc n < (n / 2 + 1) * 2 := by omega
        _ ≤ 2 ^ (log2fuel f (n / 2) + 1) * 2 := by omega
        _ = 2 ^ (log2fuel f (n / 2) + 1 + 1) := by ring
    · simp only [h, if_false]
      have : n < 2 := by omega
      calc n < 2 := this
        _ ≤ 2 ^ (0 + 1) := by norm_num

theorem natLog2_le (n : ℕ) (h : 0 < n) : 2 ^ natLog2 n ≤ n := log2fuel_le n n h le_rfl

theorem natLog2_lt (n : ℕ) : n < 2 ^ (natLog2 n + 1) := log2fuel_lt n n le_rfl

theorem pairRoundNE_exact (m d : ℕ) (hd : 0 < d) : pairRoundNE (m * d) d = m := by
  unfold pairRoundNE
  have h1 : m * d / d = m := Nat.mul_div_cancel m hd
  have h2 : m * d % d = 0 := Nat.mul_mod_left m d
  simp [h1, h2, hd]

theorem pairFloorLog2_le_52 (m d : ℕ) (hm : 0 < m) (hmlt : m < 2 ^ 53) (hd : 0 < d) :
    pairFloorLog2 (m * d) d ≤ 52 := by
  unfold pairFloorLog2
  set a : ℤ := (natLog2 (m * d) : ℤ) - (natLog2 d : ℤ) with ha
  have hub : (2 : ℕ) ^ natLog2 (m * d) ≤ m * d := natLog2_le _ (by positivity)
  have hdub : d < 2 ^ (natLog2 d + 1) := natLog2_lt d
  -- m * d < 2 ^ 53 * d < 2 ^ (53 + natLog2 d + 1)
  have key : (2 : ℕ) ^ natLog2 (m * d) < 2 ^ (53 + (natLog2 d + 1)) := by
    calc (2 : ℕ) ^ natLog2 (m * d) ≤ m * d := hub
      _ < 2 ^ 53 * d := (Nat.mul_lt_mul_right hd).mpr hmlt
      _ ≤ 2 ^ 53 * 2 ^ (natLog2 d + 1) := by
          exact Nat.mul_le_mul_left _ (Nat.le_of_lt hdub)
      _ = 2 ^ (53 + (natLog2 d + 1)) := by ring
  have hexp : natLog2 (m * d) < 53 + (natLog2 d + 1) :=
    (Nat.pow_lt_pow_iff_right (by norm_num)).mp key
  have ha53 : a ≤ 53 := by omega
  by_cases h0 : 0 ≤ a
  · simp only [h0, if_true]
    by_cases hcheck : 2 ^ a.toNat * d ≤ m * d
    · simp only [hcheck, if_true]
      -- if a = 53 the check must fail
      by_cases ha' : a ≤ 52
      · exact ha'
      · exfalso
        have : a = 53 := by omega
        rw [this] at hcheck
        have h53 : ((53 : ℤ)).toNat = 53 := rfl
        rw [h53] at hcheck
        have := Nat.le_of_mul_le_mul_right hcheck hd
        omega
    · simp only [hcheck, if_false]; omega
  · simp only [h0, if_false]
    by_cases hcheck : d ≤ 2 ^ (-a).toNat * (m * d)
    · simp only [hcheck, if_true]; omega
    · simp only [hcheck, if_false]; omega

theorem pairFloorLog2_le (n d : ℕ) :
    pairFloorLog2 n d ≤ (natLog2 n : ℤ) - (natLog2 d : ℤ) := by
  unfold pairFloorLog2
  simp only []
  split_ifs <;> omega

theorem pairConvert_exact (m D : ℕ) (hD : 0 < D) (hm : m < 2 ^ 53) :
    pow2IntVal (pairRound53 (m * D) D).1 (pairRound53 (m * D) D).2 = some m := by
  rcases Nat.eq_zero_or_pos m with hm0 | hmpos
  · subst hm0
    rw [Nat.zero_mul]
    have hE : pairFloorLog2 0 D ≤ 0 := by
      have := pairFloorLog2_le 0 D
      have h0 : natLog2 0 = 0 := rfl
      omega
    have hE52 : ¬(52 ≤ pairFloorLog2 0 D) := by omega
    have hRNE : pairRoundNE (0 * 2 ^ (52 - pairFloorLog2 0 D).toNat) D = 0 := by
      rw [Nat.zero_mul]
      unfold pairRoundNE
      simp [Nat.zero_div, Nat.zero_mod, hD]
    simp only [pairRound53, hE52, if_false, hRNE]
    unfold pow2IntVal
    have ht : ¬(0 ≤ pairFloorLog2 0 D - 52) := by omega
    simp [ht, Nat.zero_mod, Nat.zero_div]
  · have hE52 : pairFloorLog2 (m * D) D ≤ 52 := pairFloorLog2_le_52 m D hmpos hm hD
    by_cases h : 52 ≤ pairFloorLog2 (m * D) D
    · have hEeq : pairFloorLog2 (m * D) D = 52 := le_antisymm hE52 h
      have hs : ((pairFloorLog2 (m * D) D - 52).toNat) = 0 := by omega
      simp only [pairRound53, h, if_true, hs, pow_zero, Nat.mul_one]
      rw [pairRoundNE_exact m D hD]
      unfold pow2IntVal
      have ht : (0 : ℤ) ≤ pairFloorLog2 (m * D) D - 52 := by omega
      have ht0 : (pairFloorLog2 (m * D) D - 52).toNat = 0 := by omega
      simp [ht, ht0]
    · simp only [pairRound53, h, if_false]
      set s := (52 - pairFloorLog2 (m * D) D).toNat with hs
      have hrw : m * D * 2 ^ s = (m * 2 ^ s) * D := by ring
      rw [hrw, pairRoundNE_exact (m * 2 ^ s) D hD]
      unfold pow2IntVal
      have ht : ¬((0 : ℤ) ≤ pairFloorLog2 (m * D) D - 52) := by omega
      have hts : (-(pairFloorLog2 (m * D) D - 52)).toNat = s := by omega
      simp only [ht, if_false, hts]
      rw [Nat.mul_mod_left]
      simp only [if_pos rfl, if_true]
      rw [Nat.mul_div_cancel m (Nat.pos_pow_of_pos s (by norm_num))]

/-- C1 (amended): `toNative` multiplies the amount by `10^18` in 53-bit
`big.Float` arithmetic, not arbitrary precision.  When the exact scaled
product `amount * 10^18` is an integer below `2^53` (so representable at
that precision), the conversion succeeds and returns exactly that
integer's decimal string; but a product that is non-integral by less than
one 53-bit rounding step is silently rounded and returned with no error
(see the counterexample), so the PrecisionLoss error is raised exactly
when the 53-bit-rounded product — not the exact product — is
non-integral. -/
theorem toNative18_exact_on_small_integral_products (a : ℚ) (ha : 0 ≤ a)
    (hden : (a * 10 ^ 18).den = 1) (hnum : (a * 10 ^ 18).num < 2 ^ 53) :
    toNative18 a = some (intString (a * 10 ^ 18).num) := by
  set P := a * 10 ^ 18 with hP
  have hPnn : 0 ≤ P := by positivity
  have hMnn : 0 ≤ P.num := Rat.num_nonneg.mpr hPnn
  have hann : 0 ≤ a.num := Rat.num_nonneg.mpr ha
  have hdq : ((a.den : ℚ)) ≠ 0 := by
    exact_mod_cast a.den_nz
  -- P = (P.num : ℚ) since den = 1
  have hPint : (P.num : ℚ) = P := by
    conv_rhs => rw [← Rat.num_div_den P]
    rw [hden]
    simp
  -- a.num = a * a.den in ℚ
  have h1 : (a.num : ℚ) = a * (a.den : ℚ) :=
    (div_eq_iff hdq).mp (Rat.num_div_den a)
  -- key integer identity: a.num * 10^18 = P.num * a.den
  have hkey : a.num * 10 ^ 18 = P.num * (a.den : ℤ) := by
    have hq : ((a.num : ℚ)) * 10 ^ 18 = (P.num : ℚ) * ((a.den : ℚ)) := by
      rw [h1, hPint, hP]; ring
    exact_mod_cast hq
  -- same identity over ℕ
  have h2 := congrArg Int.natAbs hkey
  rw [Int.natAbs_mul, Int.natAbs_mul] at h2
  have h3 : ((10 : ℤ) ^ 18).natAbs = 10 ^ 18 := rfl
  have h4 : ((a.den : ℤ)).natAbs = a.den := by omega
  have h5 : P.num.natAbs = P.num.toNat := by omega
  rw [h3, h4, h5] at h2
  -- evaluate the converter
  have hm53 : P.num.toNat < 2 ^ 53 := by omega
  have hsign : ¬(a.num < 0) := not_lt.mpr hann
  unfold toNative18
  simp only [h2, pairConvert_exact P.num.toNat a.den a.pos hm53, hsign, if_false]
  rw [Int.toNat_of_nonneg hMnn]

/-- Witness for C1 (amended): for the `float64` amount `1/1024` the exact
scaled product `10^18/1024` is the integer `976562500000000 < 2^53`, and
`toNative` returns exactly its decimal string with no error. -/
theorem toNative18_exact_on_small_integral_products_witness :
    0 ≤ (Rat.divInt 1 1024 : ℚ) ∧
    ((Rat.divInt 1 1024 : ℚ) * 10 ^ 18).den = 1 ∧
    ((Rat.divInt 1 1024 : ℚ) * 10 ^ 18).num < 2 ^ 53 ∧
    toNative18 (Rat.divInt 1 1024) =
      some (intString ((Rat.divInt 1 1024 : ℚ) * 10 ^ 18).num) := by
  have hval : (Rat.divInt 1 1024 : ℚ) * 10 ^ 18 = ((976562500000000 : ℤ) : ℚ) := by
    rw [Rat.divInt_eq_div]
    norm_num
  have hden : ((Rat.divInt 1 1024 : ℚ) * 10 ^ 18).den = 1 := by
    rw [hval, Rat.den_intCast]
  have hnum : ((Rat.divInt 1 1024 : ℚ) * 10 ^ 18).num < 2 ^ 53 := by
    rw [hval, Rat.num_intCast]
    norm_num
  have hnn : 0 ≤ (Rat.divInt 1 1024 : ℚ) := by decide
  exact ⟨hnn, hden, hnum,
    toNative18_exact_on_small_integral_products (Rat.divInt 1 1024) hnn hden hnum⟩

set_option maxRecDepth 100000 in
/-- Counterexample for C1: the `float64` nearest `0.01` is
`5764607523034235 / 2^59` (a finite non-negative `float64`: the mantissa
is below `2^53`).  Its exact scaled product by `10^18` is not an integer
(its reduced denominator is `2^41`), yet `toNative` does not return the
PrecisionLoss error: it silently rounds and returns the integer string
`"10000000000000000"`.  The claim asserts a PrecisionLoss error whenever
the scaled product is not an exact integer; this input refutes it. -/
theorem toNative18_silent_rounding_counterexample :
    (5764607523034235 : ℕ) < 2 ^ 53 ∧
    0 ≤ (Rat.divInt 5764607523034235 (2 ^ 59) : ℚ) ∧
    (Rat.divInt 5764607523034235 (2 ^ 59) : ℚ) * 10 ^ 18 =
      Rat.divInt (5764607523034235 * 10 ^ 18) (2 ^ 59) ∧
    (Rat.divInt (5764607523034235 * 10 ^ 18) (2 ^ 59) : ℚ).den ≠ 1 ∧
    toNative18 (Rat.divInt 5764607523034235 (2 ^ 59)) = some "10000000000000000" := by
  refine ⟨by norm_num, by decide, ?_, by decide, ?_⟩
  · rw [Rat.divInt_eq_div, Rat.divInt_eq_div]
    push_cast
    ring
  · decide

set_option maxRecDepth 100000 in
/-- C2: at 18 decimals the converter maps the `float64` amount `0.01`
(whose exact value is `5764607523034235 / 2^59`) to `"10000000000000000"`
and the amount `100` to `"100000000000000000000"`, each with no error;
both outputs are minimal decimal strings: no leading zero and no sign
character. -/
theorem toNative18_concrete_conversions :
    toNative18 (Rat.divInt 5764607523034235 (2 ^ 59)) = some "10000000000000000" ∧
    toNative18 100 = some "100000000000000000000" ∧
    "10000000000000000".toList.head? = some '1' ∧
    '-' ∉ "10000000000000000".toList ∧
    "100000000000000000000".toList.head? = some '1' ∧
    '-' ∉ "100000000000000000000".toList := by
  refine ⟨by decide, by decide, by decide, by decide, by decide, by decide⟩

/- ## Step-wise transaction executor: one poll of the inner step loop

The inner loop of `CreateVaultExample` (src/unnamed/part_008, lines
634-718) and of `VaultDebtRepayExample` (lines 1048-1126).  For each
indexed step of the freshly polled plan the loop prints the step's
`en-US` label, and only for the index equal to `stepNumber - 1` (the
plan's 1-based `currentStepIndex` made 0-based) it builds, signs and
broadcasts a transaction from that step's prepared-transaction data.  The
per-step work is recorded as an action trace: a `display` action for
every step, and a `submit` action carrying the prepared transaction for
the executed one.  `PreparedTx` is modelled from the spec's
`PreparedTransaction` (§3): the generated `ChainActivity`/step types are
not under `src/`; the fields are those the loop reads (`Label`,
`MethodParameters.To/Calldata/Value`, `GasUseEstimate`). -/

structure PreparedTx where
  label : List (String × String)
  toAddress : String
  calldata : String
  value : String
  gasUseEstimate : ℤ
deriving DecidableEq

/-- Go map indexing `label["en-US"]` with the zero value `""` for a
missing key. -/
def lookupLabel (m : List (String × String)) (k : String) : String :=
  ((m.find? (fun p => p.1 == k)).map Prod.snd).getD ""

/-- One observable action of the inner step loop: printing a step label,
or signing-and-broadcasting the transaction built from a step. -/
inductive StepAction where
  | display (label : String)
  | submit (tx : PreparedTx)
deriving DecidableEq

/-- The inner step loop of one poll: `for number, step := range steps`
prints the label of every step and submits exactly at
`stepNumber - 1 == number`.  `number` starts at 0 (ℤ, matching the Go
`int` arithmetic of `stepNumber - 1`). -/
def processPollSteps (stepNumber : ℤ) : ℤ → List PreparedTx → List StepAction
  | _, [] => []
  | number, step :: rest =>
    StepAction.display (lookupLabel step.label "en-US") ::
      ((if stepNumber - 1 = number then [StepAction.submit step] else []) ++
        processPollSteps stepNumber (number + 1) rest)

/-- The transactions submitted in an action trace. -/
def submittedTxs (acts : List StepAction) : List PreparedTx :=
  acts.filterMap (fun a => match a with | StepAction.submit t => some t | _ => none)

/-- The labels displayed in an action trace. -/
def displayedLabels (acts : List StepAction) : List String :=
  acts.filterMap (fun a => match a with | StepAction.display l => some l | _ => none)

theorem processPollSteps_submit_none (k : ℤ) :
    ∀ (steps : List PreparedTx) (i : ℤ), k - 1 < i →
      submittedTxs (processPollSteps k i steps) = [] := by
  intro steps
  induction steps with
  | nil => intro i _; rfl
  | cons step rest ih =>
    intro i hi
    have hne : ¬(k - 1 = i) := by omega
    simp only [processPollSteps, hne, if_false, List.nil_append, submittedTxs,
      List.filterMap_cons]
    exact ih (i + 1) (by omega)

theorem processPollSteps_submit_eq (k : ℤ) :
    ∀ (steps : List PreparedTx) (i : ℤ), i ≤ k - 1 → k - 1 < i + steps.length →
      ∃ s, steps.get? (k - 1 - i).toNat = some s ∧
        submittedTxs (processPollSteps k i steps) = [s] := by
  intro steps
  induction steps with
  | nil => intro i h1 h2; simp at h2; omega
  | cons step rest ih =>
    intro i h1 h2
    by_cases heq : k - 1 = i
    · refine ⟨step, ?_, ?_⟩
      · have : (k - 1 - i).toNat = 0 := by omega
        simp [this]
      · simp only [processPollSteps, heq, if_pos rfl, submittedTxs, List.filterMap_cons,
          List.filterMap_append]
        have hrest := processPollSteps_submit_none k rest (i + 1) (by omega)
        simp only [submittedTxs] at hrest
        simp [hrest]
    · have hlt : i < k - 1 := by omega
      obtain ⟨s, hs1, hs2⟩ := ih (i + 1) (by omega) (by simp at h2 ⊢; omega)
      refine ⟨s, ?_, ?_⟩
      · have hidx : (k - 1 - i).toNat = (k - 1 - (i + 1)).toNat + 1 := by omega
        simp only [hidx, List.get?_cons_succ]
        exact hs1
      · simp only [processPollSteps, heq, if_false, List.nil_append, submittedTxs,
          List.filterMap_cons] at hs2 ⊢
        exact hs2

theorem processPollSteps_labels (k : ℤ) :
    ∀ (steps : List PreparedTx) (i : ℤ),
      displayedLabels (processPollSteps k i steps) =
        steps.map (fun st => lookupLabel st.label "en-US") := by
  intro steps
  induction steps with
  | nil => intro i; rfl
  | cons step rest ih =>
    intro i
    by_cases heq : k - 1 = i <;>
      simp [processPollSteps, heq, displayedLabels, List.filterMap_cons,
        List.filterMap_append, ← ih (i + 1)]

/-- C3: in every poll whose plan has `1 ≤ currentStepIndex ≤
length(steps)`, the executor submits exactly one transaction — built from
the step at 1-based position `currentStepIndex` — and every step of the
plan (that one included) has its label displayed; no other step is
submitted. -/
theorem executor_submits_only_current_step (k : ℤ) (steps : List PreparedTx)
    (h1 : 1 ≤ k) (h2 : k ≤ steps.length) :
    (∃ s, steps.get? (k - 1).toNat = some s ∧
      submittedTxs (processPollSteps k 0 steps) = [s]) ∧
    displayedLabels (processPollSteps k 0 steps) =
      steps.map (fun st => lookupLabel st.label "en-US") := by
  constructor
  · have := processPollSteps_submit_eq k steps 0 (by omega) (by omega)
    simpa using this
  · exact processPollSteps_labels k steps 0

/-- Witness for C3: a two-step plan with `currentStepIndex = 1` submits
only the first step's transaction, and both labels are displayed. -/
theorem executor_submits_only_current_step_witness :
    (1 : ℤ) ≤ 1 ∧
    (1 : ℤ) ≤ ([⟨[("en-US", "Approve")], "0xA", "0x01", "0", 21000⟩,
                ⟨[("en-US", "CreateVault")], "0xB", "0x02", "0", 90000⟩] :
                 List PreparedTx).length ∧
    submittedTxs (processPollSteps 1 0
        [⟨[("en-US", "Approve")], "0xA", "0x01", "0", 21000⟩,
         ⟨[("en-US", "CreateVault")], "0xB", "0x02", "0", 90000⟩]) =
      [⟨[("en-US", "Approve")], "0xA", "0x01", "0", 21000⟩] ∧
    displayedLabels (processPollSteps 1 0
        [⟨[("en-US", "Approve")], "0xA", "0x01", "0", 21000⟩,
         ⟨[("en-US", "CreateVault")], "0xB", "0x02", "0", 90000⟩]) =
      ["Approve", "CreateVault"] := by
  obtain ⟨⟨s, hs1, hs2⟩, hlab⟩ :=
    executor_submits_only_current_step 1
      [⟨[("en-US", "Approve")], "0xA", "0x01", "0", 21000⟩,
       ⟨[("en-US", "CreateVault")], "0xB", "0x02", "0", 90000⟩]
      (by norm_num) (by norm_num)
  have hs : s = ⟨[("en-US", "Approve")], "0xA", "0x01", "0", 21000⟩ := by
    have : ((1 : ℤ) - 1).toNat = 0 := rfl
    rw [this] at hs1
    simpa using hs1.symm
  subst hs
  refine ⟨le_rfl, by norm_num, hs2, by simpa using hlab⟩

/- ## Step-wise transaction executor: outer re-polling loops

Both example flows wrap the step processing in
`for s := 0; s <= (numOfSteps - stepNumber); s++ { ...re-poll...; ...steps... }`.

In `CreateVaultExample` (src/unnamed/part_008, lines 612-631) the
variables `numOfSteps` and `stepNumber` hold the numbers of the initial
poll, and the in-body re-poll binds fresh shadowing variables with `:=`
(lines 629-631), so the loop bound is fixed by the initial poll.  In
`VaultDebtRepayExample` (lines 1028-1045) the in-body re-poll re-assigns
the same outer variables with `=` (lines 1043-1045), so each next
condition check uses the latest poll's numbers.

The loops are modelled over fuel (`none` = fuel exhausted, never reached
in the theorems); the body's other work cannot change the loop variables
and unrecoverable errors exit the process, so the happy-path model keeps
only the counter updates.  The result is the number of body executions. -/

def createVaultOuterLoop (fuel : ℕ) (numOfSteps stepNumber : ℤ) (s : ℤ)
    (iters : ℕ) : Option ℕ :=
  match fuel with
  | 0 => none
  | f + 1 =>
    if s ≤ numOfSteps - stepNumber then
      createVaultOuterLoop f numOfSteps stepNumber (s + 1) (iters + 1)
    else some iters

/-- The repayment flow's outer loop; `polls i` is the
`(NumberOfSteps, StepNumber)` pair returned by the `i`-th in-body
re-poll, written into the loop-condition variables before the next
check. -/
def repayOuterLoop (fuel : ℕ) (polls : ℕ → ℤ × ℤ) (numOfSteps stepNumber : ℤ)
    (s : ℤ) (iters : ℕ) : Option ℕ :=
  match fuel with
  | 0 => none
  | f + 1 =>
    if s ≤ numOfSteps - stepNumber then
      repayOuterLoop f polls (polls iters).1 (polls iters).2 (s + 1) (iters + 1)
    else some iters

theorem createVaultOuterLoop_count (N k : ℤ) :
    ∀ (fuel : ℕ) (s : ℤ) (iters : ℕ), s ≤ N - k + 1 →
      (N - k + 1 - s).toNat + 1 ≤ fuel →
      createVaultOuterLoop fuel N k s iters = some (iters + (N - k + 1 - s).toNat) := by
  intro fuel
  induction fuel with
  | zero => intro s iters h1 h2; omega
  | succ f ih =>
    intro s iters h1 h2
    rw [createVaultOuterLoop]
    by_cases hc : s ≤ N - k
    · rw [if_pos hc]
      rw [ih (s + 1) (iters + 1) (by omega) (by omega)]
      congr 1
      omega
    · rw [if_neg hc]
      congr 1
      omega

/-- C4 (amended): in the vault-creation flow the outer loop executes
exactly `totalSteps - currentStepIndex + 1` iterations, `totalSteps` and
`currentStepIndex` taken from the initial poll, because the in-body poll
results only shadow the loop-condition variables.  In the repayment flow
the loop bound is re-read from each fresh poll (see the counterexample),
so the initial-poll formula does not hold there in general. -/
theorem createVault_outer_loop_iterations (N k : ℤ) (fuel : ℕ)
    (hk : k ≤ N) (hfuel : (N - k).toNat + 2 ≤ fuel) :
    createVaultOuterLoop fuel N k 0 0 = some ((N - k).toNat + 1) := by
  have := createVaultOuterLoop_count N k fuel 0 0 (by omega) (by omega)
  rw [this]
  congr 1
  omega

/-- Witness for C4 (amended): an initial poll of `(totalSteps,
currentStepIndex) = (2, 1)` makes the vault-creation outer loop run
exactly `2 - 1 + 1 = 2` iterations. -/
theorem createVault_outer_loop_iterations_witness :
    (1 : ℤ) ≤ 2 ∧ ((2 : ℤ) - 1).toNat + 2 ≤ 10 ∧
    createVaultOuterLoop 10 2 1 0 0 = some 2 := by
  refine ⟨by norm_num, by norm_num, ?_⟩
  exact createVault_outer_loop_iterations 2 1 10 (by norm_num) (by norm_num)

/-- Counterexample for C4: in the repayment flow the loop condition reads
the re-assigned poll results, not the initial poll.  With an initial poll
of `(2, 1)` — for which the claim predicts `2 - 1 + 1 = 2` iterations —
and every in-body re-poll returning `(3, 1)`, the loop body executes 3
times.  So the repayment flow's iteration count is not determined by the
initial poll, refuting the claim's "holds for both flows". -/
theorem repayOuterLoop_iterations_counterexample :
    repayOuterLoop 10 (fun _ => (3, 1)) 2 1 0 0 = some 3 ∧ (3 : ℕ) ≠ 2 - 1 + 1 := by
  constructor
  · rfl
  · decide

/- ## Transaction log (SaveTransactionDetails and the patch block)

`EthereumTransaction` and `TransactionDetails` are the structs of
src/unnamed/part_008 (lines 473-489; the repayment file's copy differs
only in `Value *big.Int` vs `Value int`, both embedded as `ℤ`).  The Go
field `From` is rendered `fromAddress` and `To` is rendered `toAddress`
because `from`/`to` are Lean keywords; the JSON keys are the struct
tags.  The log file is modelled as `Option Json`: `none` when the file
is absent, otherwise the parsed JSON document; `json.Marshal`/
`json.NewEncoder` produce the encoding of the value (indentation is a
byte-level concern below the `Json` value model). -/

structure EthereumTransaction where
  fromAddress : String
  toAddress : String
  value : ℤ
  gas : ℤ
  gasPrice : ℤ
  nonce : ℕ
  chainId : ℤ
  data : String
deriving DecidableEq

structure TransactionDetails where
  timestamp : String
  tx : EthereumTransaction
  txHash : String
  vaultId : ℤ
deriving DecidableEq

/-- Unmarshalling a JSON value into a Go integer field (`int`,
`*big.Int`): absent or `null` leaves the zero value, a number decodes,
anything else fails. -/
def decNumField : Option Json → Option ℤ
  | none => some 0
  | some Json.null => some 0
  | some (Json.num n) => some n
  | some _ => none

/-- Unmarshalling into a Go `uint64` field: additionally rejects negative
numbers. -/
def decNatField (oj : Option Json) : Option ℕ :=
  (decNumField oj).bind (fun n => if 0 ≤ n then some n.toNat else none)

/-- `json.Marshal` of `EthereumTransaction` (field order = struct
order, keys = struct tags). -/
def encodeEthTx (t : EthereumTransaction) : Json :=
  Json.obj [("from", Json.str t.fromAddress), ("to", Json.str t.toAddress),
            ("value", Json.num t.value), ("gas", Json.num t.gas),
            ("gasPrice", Json.num t.gasPrice), ("nonce", Json.num t.nonce),
            ("chainId", Json.num t.chainId), ("data", Json.str t.data)]

/-- `json.Unmarshal` into `EthereumTransaction`. -/
def decodeEthTx : Json → Option EthereumTransaction
  | Json.obj fs =>
    match decStringField (jLookup fs "from"), decStringField (jLookup fs "to"),
          decNumField (jLookup fs "value"), decNumField (jLookup fs "gas"),
          decNumField (jLookup fs "gasPrice"), decNatField (jLookup fs "nonce"),
          decNumField (jLookup fs "chainId"), decStringField (jLookup fs "data") with
    | some f, some t, some v, some g, some gp, some n, some c, some d =>
      some ⟨f, t, v, g, gp, n, c, d⟩
    | _, _, _, _, _, _, _, _ => none
  | Json.null => some ⟨"", "", 0, 0, 0, 0, 0, ""⟩
  | _ => none

/-- Unmarshalling the nested `tx` field: absent leaves the zero struct. -/
def decTxField : Option Json → Option EthereumTransaction
  | none => some ⟨"", "", 0, 0, 0, 0, 0, ""⟩
  | some j => decodeEthTx j

/-- `json.Marshal` of `TransactionDetails`. -/
def encodeTD (d : TransactionDetails) : Json :=
  Json.obj [("timestamp", Json.str d.timestamp), ("tx", encodeEthTx d.tx),
            ("tx_hash", Json.str d.txHash), ("vault_id", Json.num d.vaultId)]

/-- `json.Unmarshal` into `TransactionDetails`. -/
def decodeTD : Json → Option TransactionDetails
  | Json.obj fs =>
    match decStringField (jLookup fs "timestamp"), decTxField (jLookup fs "tx"),
          decStringField (jLookup fs "tx_hash"), decNumField (jLookup fs "vault_id") with
    | some ts, some tx, some h, some v => some ⟨ts, tx, h, v⟩
    | _, _, _, _ => none
  | Json.null => some ⟨"", ⟨"", "", 0, 0, 0, 0, 0, ""⟩, "", 0⟩
  | _ => none

/-- `json.Marshal` of a `[]TransactionDetails`. -/
def encodeTDList (l : List TransactionDetails) : Json :=
  Json.arr (l.map encodeTD)

/-- `json.Unmarshal` into a `[]TransactionDetails`: `null` leaves the nil
slice, an array decodes element-wise, anything else fails. -/
def decodeTDList : Json → Option (List TransactionDetails)
  | Json.arr xs => optionMapList decodeTD xs
  | Json.null => some []
  | _ => none

/-- Reading the log file as `SaveTransactionDetails` does (src/unnamed/
part_008, lines 500-511): an absent file is the empty sequence, an
existing file is decoded as a `[]TransactionDetails`. -/
def readLog : Option Json → Option (List TransactionDetails)
  | none => some []
  | some j => decodeTDList j

/-- `SaveTransactionDetails` (src/unnamed/part_008, lines 491-531): build
the entry from the transaction, hash, vault id and the current timestamp;
read the full existing sequence (empty when the file is absent, an error
when it does not decode); append; rewrite the whole file. -/
def saveTransactionDetails (now : String) (tx : EthereumTransaction)
    (txHash : String) (vaultID : ℤ) (file : Option Json) : Except String Json :=
  let transactionData : TransactionDetails := ⟨now, tx, txHash, vaultID⟩
  match file with
  | none => Except.ok (encodeTDList ([] ++ [transactionData]))
  | some j =>
    match decodeTDList j with
    | none => Except.error "failed to decode existing data"
    | some existingData => Except.ok (encodeTDList (existingData ++ [transactionData]))

/-- `transactions[len(transactions)-1].VaultID = vaultId`: replace the
last element's `vaultId`, leaving everything else unchanged. -/
def setLastVaultId (id : ℤ) : List TransactionDetails → List TransactionDetails
  | [] => []
  | [d] => [{ d with vaultId := id }]
  | d :: rest => d :: setLastVaultId id rest

/-- The patch-last-vault-id block of `CreateVaultExample` (src/unnamed/
part_008, lines 736-770): read the file (fatal when absent), unmarshal
(fatal on failure), set the last entry's `vault_id` when the sequence is
non-empty, marshal and rewrite the whole file. -/
def patchLastVaultId (vaultId : ℤ) (file : Option Json) : Except String Json :=
  match file with
  | none => Except.error "Error reading file"
  | some j =>
    match decodeTDList j with
    | none => Except.error "Error unmarshalling JSON"
    | some transactions =>
      Except.ok (encodeTDList
        (if 0 < transactions.length then setLastVaultId vaultId transactions
         else transactions))

theorem toNat_intCast_nat (n : ℕ) : ((n : ℤ)).toNat = n := rfl

theorem decodeEthTx_encodeEthTx (t : EthereumTransaction) :
    decodeEthTx (encodeEthTx t) = some t := by
  simp [encodeEthTx, decodeEthTx, jLookup, List.find?, decStringField, decNumField,
    decNatField, Int.natCast_nonneg, toNat_intCast_nat]

theorem decodeTD_encodeTD (d : TransactionDetails) :
    decodeTD (encodeTD d) = some d := by
  simp [encodeTD, decodeTD, jLookup, List.find?, decStringField, decNumField,
    decTxField, decodeEthTx_encodeEthTx]

theorem decodeTDList_encodeTDList (l : List TransactionDetails) :
    decodeTDList (encodeTDList l) = some l := by
  simp only [encodeTDList, decodeTDList]
  induction l with
  | nil => rfl
  | cons d rest ih =>
    simp [optionMapList, decodeTD_encodeTD, ih]

/-- C7: for every prior state of the log file (an absent file reads as
the empty sequence) and every entry, append followed by a read yields the
prior ordered sequence with the new entry at the end; in particular the
last element is the entry just appended and all earlier entries are
preserved in order. -/
theorem saveTransactionDetails_appends (file : Option Json)
    (prior : List TransactionDetails) (now : String) (tx : EthereumTransaction)
    (txHash : String) (vaultID : ℤ) (h : readLog file = some prior) :
    saveTransactionDetails now tx txHash vaultID file =
      Except.ok (encodeTDList (prior ++ [⟨now, tx, txHash, vaultID⟩])) ∧
    readLog (some (encodeTDList (prior ++ [⟨now, tx, txHash, vaultID⟩]))) =
      some (prior ++ [⟨now, tx, txHash, vaultID⟩]) ∧
    (prior ++ [(⟨now, tx, txHash, vaultID⟩ : TransactionDetails)]).getLast? =
      some (⟨now, tx, txHash, vaultID⟩ : TransactionDetails) := by
  refine ⟨?_, ?_, ?_⟩
  · cases file with
    | none =>
      simp only [readLog, Option.some_inj] at h
      subst h
      rfl
    | some j =>
      simp only [readLog] at h
      simp [saveTransactionDetails, h]
  · exact decodeTDList_encodeTDList _
  · simp

/-- Witness for C7: appending to an absent file produces a one-element
log whose single entry is the appended one. -/
theorem saveTransactionDetails_appends_witness :
    readLog none = some [] ∧
    saveTransactionDetails "2024-01-01T00:00:00Z"
        ⟨"0xFrom", "0xTo", 5, 21000, 1000000000, 7, 1, "0xabc"⟩ "0xhash" (-1) none =
      Except.ok (encodeTDList [⟨"2024-01-01T00:00:00Z",
        ⟨"0xFrom", "0xTo", 5, 21000, 1000000000, 7, 1, "0xabc"⟩, "0xhash", -1⟩]) ∧
    readLog (some (encodeTDList [⟨"2024-01-01T00:00:00Z",
        ⟨"0xFrom", "0xTo", 5, 21000, 1000000000, 7, 1, "0xabc"⟩, "0xhash", -1⟩])) =
      some [⟨"2024-01-01T00:00:00Z",
        ⟨"0xFrom", "0xTo", 5, 21000, 1000000000, 7, 1, "0xabc"⟩, "0xhash", -1⟩] := by
  obtain ⟨h1, h2, h3⟩ := saveTransactionDetails_appends none []
    "2024-01-01T00:00:00Z" ⟨"0xFrom", "0xTo", 5, 21000, 1000000000, 7, 1, "0xabc"⟩
    "0xhash" (-1) rfl
  exact ⟨rfl, h1, h2⟩

/-- C8: patching the last vault id of a non-empty log file rewrites the
file as exactly the element-wise re-serialization in which every prior
entry is serialized unchanged (byte-identical after re-serialization) and
the last entry differs only in its `vault_id`; a subsequent read returns
the patched sequence. -/
theorem setLastVaultId_append (id : ℤ) (d : TransactionDetails) :
    ∀ pre : List TransactionDetails,
      setLastVaultId id (pre ++ [d]) = pre ++ [{ d with vaultId := id }] := by
  intro pre
  induction pre with
  | nil => rfl
  | cons a pre ih =>
    cases pre with
    | nil => rfl
    | cons b pre' =>
      show setLastVaultId id (a :: ((b :: pre') ++ [d])) = _
      simp only [setLastVaultId]
      exact congrArg (List.cons a) ih

theorem patchLastVaultId_frame (j : Json) (pre : List TransactionDetails)
    (d : TransactionDetails) (id : ℤ) (h : decodeTDList j = some (pre ++ [d])) :
    patchLastVaultId id (some j) =
      Except.ok (Json.arr (pre.map encodeTD ++ [encodeTD { d with vaultId := id }])) ∧
    readLog (some (Json.arr (pre.map encodeTD ++ [encodeTD { d with vaultId := id }]))) =
      some (pre ++ [{ d with vaultId := id }]) := by
  have hset := setLastVaultId_append id d pre
  constructor
  · have hlen : 0 < (pre ++ [d]).length := by simp
    simp [patchLastVaultId, h, hlen, hset, encodeTDList]
  · have := decodeTDList_encodeTDList (pre ++ [{ d with vaultId := id }])
    simpa [encodeTDList, readLog] using this

/-- Witness for C8: patching a two-entry log changes only the second
entry's `vault_id` (to 42) and leaves the first entry's serialization
identical. -/
theorem patchLastVaultId_frame_witness :
    decodeTDList (encodeTDList
      [⟨"t1", ⟨"a", "b", 1, 2, 3, 4, 5, "d1"⟩, "h1", -1⟩,
       ⟨"t2", ⟨"c", "d", 6, 7, 8, 9, 10, "d2"⟩, "h2", -1⟩]) =
      some ([⟨"t1", ⟨"a", "b", 1, 2, 3, 4, 5, "d1"⟩, "h1", -1⟩] ++
        [⟨"t2", ⟨"c", "d", 6, 7, 8, 9, 10, "d2"⟩, "h2", -1⟩]) ∧
    patchLastVaultId 42 (some (encodeTDList
      [⟨"t1", ⟨"a", "b", 1, 2, 3, 4, 5, "d1"⟩, "h1", -1⟩,
       ⟨"t2", ⟨"c", "d", 6, 7, 8, 9, 10, "d2"⟩, "h2", -1⟩])) =
      Except.ok (Json.arr
        ([⟨"t1", ⟨"a", "b", 1, 2, 3, 4, 5, "d1"⟩, "h1", -1⟩].map encodeTD ++
         [encodeTD ⟨"t2", ⟨"c", "d", 6, 7, 8, 9, 10, "d2"⟩, "h2", 42⟩])) := by
  have h := decodeTDList_encodeTDList
    [⟨"t1", ⟨"a", "b", 1, 2, 3, 4, 5, "d1"⟩, "h1", -1⟩,
     ⟨"t2", ⟨"c", "d", 6, 7, 8, 9, 10, "d2"⟩, "h2", -1⟩]
  obtain ⟨h1, _⟩ := patchLastVaultId_frame
    (encodeTDList [⟨"t1", ⟨"a", "b", 1, 2, 3, 4, 5, "d1"⟩, "h1", -1⟩,
                   ⟨"t2", ⟨"c", "d", 6, 7, 8, 9, 10, "d2"⟩, "h2", -1⟩])
    [⟨"t1", ⟨"a", "b", 1, 2, 3, 4, 5, "d1"⟩, "h1", -1⟩]
    ⟨"t2", ⟨"c", "d", 6, 7, 8, 9, 10, "d2"⟩, "h2", -1⟩ 42 h
  exact ⟨h, h1⟩

/- ## Confirmation wait (waitForTransactionReceipt)

`waitForTransactionReceipt` (src/unnamed/part_008, lines 533-555, and the
identical copy at 957-979) loops while `time.Since(startTime) <
maxWaitTime`; each iteration calls `TransactionReceipt` (success returns
the receipt immediately) and otherwise sleeps `checkInterval`.  Time is
modelled as a discrete clock of elapsed time since `startTime`, advanced
only by the sleeps (the RPC call itself is instantaneous in the model);
`receiptAt e` is the chain's answer at elapsed time `e` (`none` =
`ethereum.NotFound` or any other lookup error, after which the loop
continues).  The timeout result (`Except.error ()`) stands for the
`"transaction not mined after ..."` error; the function also returns the
elapsed time at the moment it returns.  `fuel` bounds the modelled
recursion; `none` means the fuel ran out and is never reached under the
theorems' fuel hypothesis. -/

structure Receipt where
  status : ℕ
  blockNumber : ℕ
deriving DecidableEq

def waitForTransactionReceipt (fuel : ℕ) (receiptAt : ℕ → Option Receipt)
    (maxWaitTime checkInterval : ℕ) (t : ℕ) : Option (Except Unit Receipt × ℕ) :=
  match fuel with
  | 0 => none
  | f + 1 =>
    if t < maxWaitTime then
      match receiptAt t with
      | some receipt => some (Except.ok receipt, t)
      | none =>
        waitForTransactionReceipt f receiptAt maxWaitTime checkInterval
          (t + checkInterval)
    else some (Except.error (), t)

theorem waitForTransactionReceipt_spec (receiptAt : ℕ → Option Receipt)
    (M c : ℕ) (_hc : 0 < c) :
    ∀ (fuel t : ℕ), M ≤ t + fuel * c → t < M + c →
      ∃ out, waitForTransactionReceipt (fuel + 1) receiptAt M c t = some out ∧
        ((∃ rc, out = (Except.ok rc, out.2) ∧ receiptAt out.2 = some rc ∧ out.2 < M) ∨
         (out = (Except.error (), out.2) ∧ M ≤ out.2 ∧ out.2 < M + c ∧
           ∀ k, t + k * c < M → receiptAt (t + k * c) = none)) := by
  intro fuel
  induction fuel with
  | zero =>
    intro t h1 h2
    have ht : ¬(t < M) := by omega
    refine ⟨(Except.error (), t), ?_, Or.inr ⟨rfl, by omega, h2, ?_⟩⟩
    · simp [waitForTransactionReceipt, ht]
    · intro k hk
      omega
  | succ f ih =>
    intro t h1 h2
    by_cases ht : t < M
    · cases hrc : receiptAt t with
      | some rc =>
        refine ⟨(Except.ok rc, t), ?_, Or.inl ⟨rc, rfl, hrc, ht⟩⟩
        simp [waitForTransactionReceipt, ht, hrc]
      | none =>
        have hmul : (f + 1) * c = f * c + c := Nat.succ_mul f c
        obtain ⟨out, hout, hcase⟩ := ih (t + c) (by omega) (by omega)
        refine ⟨out, ?_, ?_⟩
        · simpa [waitForTransactionReceipt, ht, hrc] using hout
        · rcases hcase with hl | ⟨he, hm, hb, hall⟩
          · exact Or.inl hl
          · refine Or.inr ⟨he, hm, hb, ?_⟩
            intro k hk
            cases k with
            | zero => simpa using hrc
            | succ k' =>
              have hrw : t + (k' + 1) * c = t + c + k' * c := by ring
              rw [hrw] at hk ⊢
              exact hall k' hk
    · refine ⟨(Except.error (), t), ?_, Or.inr ⟨rfl, by omega, h2, ?_⟩⟩
      · simp [waitForTransactionReceipt, ht]
      · intro k hk
        omega

/-- C9: with a positive `checkInterval` and fuel covering the wait
budget, the wait loop always terminates (never panics or loops forever);
when no receipt ever appears it returns the timeout error after an
elapsed time of at least `maxWaitTime` and at most
`maxWaitTime + checkInterval`; whenever it returns a receipt, that
receipt is the oracle's answer at the returning poll (before the
deadline); and if some in-budget poll time has a receipt available, the
function returns a receipt and no error. -/
theorem waitForTransactionReceipt_behavior (receiptAt : ℕ → Option Receipt)
    (M c fuel : ℕ) (hc : 0 < c) (hfuel : M ≤ fuel * c) :
    (∃ out, waitForTransactionReceipt (fuel + 1) receiptAt M c 0 = some out) ∧
    ((∀ u, receiptAt u = none) →
      ∃ e, waitForTransactionReceipt (fuel + 1) receiptAt M c 0 =
          some (Except.error (), e) ∧ M ≤ e ∧ e ≤ M + c) ∧
    (∀ rc e, waitForTransactionReceipt (fuel + 1) receiptAt M c 0 =
        some (Except.ok rc, e) → receiptAt e = some rc ∧ e < M) ∧
    ((∃ k, k * c < M ∧ (receiptAt (k * c)).isSome) →
      ∃ rc e, waitForTransactionReceipt (fuel + 1) receiptAt M c 0 =
        some (Except.ok rc, e)) := by
  obtain ⟨out, hout, hcase⟩ :=
    waitForTransactionReceipt_spec receiptAt M c hc fuel 0 (by omega) (by omega)
  refine ⟨⟨out, hout⟩, ?_, ?_, ?_⟩
  · intro hnone
    rcases hcase with ⟨rc, _, hrc, _⟩ | ⟨he, hm, hb, _⟩
    · rw [hnone out.2] at hrc
      exact absurd hrc (by simp)
    · exact ⟨out.2, by rw [hout, ← he], hm, by omega⟩
  · intro rc e heq
    rcases hcase with ⟨rc', he', hrc, hlt⟩ | ⟨he, _, _, _⟩
    · rw [hout] at heq
      rw [he'] at heq
      obtain ⟨h1, h2⟩ := Prod.mk.injEq .. ▸ (Option.some_inj.mp heq)
      subst h2
      cases h1
      exact ⟨hrc, hlt⟩
    · rw [hout, he] at heq
      simp at heq
  · intro ⟨k, hk, hsome⟩
    rcases hcase with ⟨rc, he', hrc, hlt⟩ | ⟨he, _, _, hall⟩
    · exact ⟨rc, out.2, by rw [hout, ← he']⟩
    · exfalso
      have hnone := hall k (by omega)
      rw [Nat.zero_add] at hnone
      rw [hnone] at hsome
      simp at hsome

/-- Witness for C9: the call sites' parameters `maxWaitTime = 120`,
`checkInterval = 15` (in seconds) with a receipt that never appears: the
wait returns the timeout error at elapsed time 120, within
`[maxWaitTime, maxWaitTime + checkInterval]`. -/
theorem waitForTransactionReceipt_behavior_witness :
    0 < 15 ∧ 120 ≤ 9 * 15 ∧
    waitForTransactionReceipt 10 (fun _ => none) 120 15 0 =
      some (Except.error (), 120) ∧ 120 ≤ 120 ∧ (120 : ℕ) ≤ 120 + 15 := by
  obtain ⟨_, htimeout, _, _⟩ :=
    waitForTransactionReceipt_behavior (fun _ => none) 120 15 9
      (by norm_num) (by norm_num)
  obtain ⟨e, he, hm, hb⟩ := htimeout (fun _ => rfl)
  have heval : waitForTransactionReceipt 10 (fun _ => none) 120 15 0 =
      some (Except.error (), 120) := rfl
  refine ⟨by norm_num, by norm_num, heval, le_rfl, by norm_num⟩

/- ## Vault id extraction (getVaultId)

`getVaultId` (src/unnamed/part_008, lines 455-471) scans the logs in
order; at the first entry with `Contract == "Cdpmanager"` it reads the
decoded payload's `"Cdp"` key and parses it with `strconv.Atoi`,
returning the parse result or an error; with no such entry it returns
`(0, nil)`.  `EventLog` is modelled from the usage of the generated
`service.Log` type (not under `src/`): the fields read are `Contract`
and `Decoded` (a `*map[string]string`; the code dereferences the pointer
unconditionally, and the model carries the dereferenced payload as an
association list).  `atoi` models `strconv.Atoi` on a 64-bit platform:
an optional single leading `+` or `-`, then one or more decimal digits,
with the value required to fit in a signed 64-bit integer (otherwise
`ErrRange`). -/

structure EventLog where
  contract : String
  decoded : List (String × String)
deriving DecidableEq

/-- Go map indexing with the two-value form `v, ok := payload["Cdp"]`. -/
def lookupStr (m : List (String × String)) (k : String) : Option String :=
  (m.find? (fun p => p.1 == k)).map Prod.snd

/-- Digit-by-digit accumulation of `strconv.Atoi`; fails at the first
non-digit character. -/
def parseDigits : List Char → ℕ → Option ℕ
  | [], acc => some acc
  | ch :: cs, acc =>
    if ch.isDigit then parseDigits cs (acc * 10 + (ch.toNat - 48)) else none

/-- `strconv.Atoi` on a 64-bit platform. -/
def atoi (s : String) : Option ℤ :=
  match s.toList with
  | [] => none
  | ch :: cs =>
    let neg := ch = '-'
    let ds := if ch = '-' ∨ ch = '+' then cs else ch :: cs
    match ds with
    | [] => none
    | _ :: _ =>
      (parseDigits ds 0).bind (fun n =>
        let v : ℤ := if neg then -(n : ℤ) else (n : ℤ)
        if -(2 ^ 63) ≤ v ∧ v < 2 ^ 63 then some v else none)

def getVaultId : List EventLog → Except String ℤ
  | [] => Except.ok 0
  | l :: ls =>
    if l.contract = "Cdpmanager" then
      match lookupStr l.decoded "Cdp" with
      | none => Except.error "failed to get vault id from log"
      | some s =>
        match atoi s with
        | none => Except.error "failed to convert vault id to int"
        | some v => Except.ok v
    else getVaultId ls

/-- The first log entry from the `Cdpmanager` contract, if any. -/
def findCdpmanager (logs : List EventLog) : Option EventLog :=
  logs.find? (fun l => l.contract == "Cdpmanager")

/-- The numeric value of a digit string (most significant first). -/
def digitsVal (ds : List Char) : ℕ :=
  ds.foldl (fun a ch => a * 10 + (ch.toNat - 48)) 0

theorem parseDigits_all_digits :
    ∀ (ds : List Char) (acc : ℕ), (∀ ch ∈ ds, ch.isDigit) →
      parseDigits ds acc = some (ds.foldl (fun a ch => a * 10 + (ch.toNat - 48)) acc) := by
  intro ds
  induction ds with
  | nil => intro acc _; rfl
  | cons ch cs ih =>
    intro acc hall
    have hd : ch.isDigit := hall ch (List.mem_cons_self ch cs)
    simp only [parseDigits, hd, if_true, List.foldl_cons]
    exact ih _ (fun c hc => hall c (List.mem_cons_of_mem ch hc))

theorem atoi_digit_string (ds : List Char) (hne : ds ≠ [])
    (hall : ∀ ch ∈ ds, ch.isDigit) :
    atoi (String.mk ds) =
      if (digitsVal ds : ℤ) < 2 ^ 63 then some ((digitsVal ds : ℤ)) else none := by
  cases ds with
  | nil => exact absurd rfl hne
  | cons ch cs =>
    have hd : ch.isDigit := hall ch (List.mem_cons_self ch cs)
    have hm : ¬(ch = '-' ∨ ch = '+') := by
      rintro (h | h) <;> subst h <;> exact absurd hd (by decide)
    have hneg : ¬(ch = '-') := fun h => hm (Or.inl h)
    have hplus : ¬(ch = '+') := fun h => hm (Or.inr h)
    have htl : (String.mk (ch :: cs)).toList = ch :: cs := rfl
    unfold atoi
    rw [htl]
    simp only [hneg, hplus, if_false, or_self]
    rw [parseDigits_all_digits (ch :: cs) 0 hall]
    rw [show List.foldl (fun a ch => a * 10 + (ch.toNat - 48)) 0 (ch :: cs) =
          digitsVal (ch :: cs) from rfl]
    rw [Option.some_bind]
    generalize digitsVal (ch :: cs) = n
    have hA : -(2 ^ 63 : ℤ) ≤ (n : ℤ) := le_trans (by norm_num) (Int.natCast_nonneg n)
    by_cases hB : ((n : ℕ) : ℤ) < 2 ^ 63
    · rw [if_pos ⟨hA, hB⟩, if_pos hB]
    · rw [if_neg (fun h => hB h.2), if_neg hB]

/-- C10 (amended): with no `Cdpmanager` entry, `getVaultId` returns vault
id 0 with no error.  With a `Cdpmanager` entry present, the result is
determined by the first such entry: an error exactly when its payload
lacks the `"Cdp"` key or `strconv.Atoi` rejects the value — i.e. the
value is not an optionally-signed decimal integer **within the signed
64-bit range** (`atoi`, last conjunct: a non-empty all-digit string
parses to its numeric value precisely when that value is below `2^63`,
and range overflow is an error even though the text is a decimal
integer) — and otherwise the parsed integer. -/
theorem getVaultId_characterization (logs : List EventLog) :
    (findCdpmanager logs = none → getVaultId logs = Except.ok 0) ∧
    (∀ l, findCdpmanager logs = some l →
      (lookupStr l.decoded "Cdp" = none →
        getVaultId logs = Except.error "failed to get vault id from log") ∧
      (∀ s, lookupStr l.decoded "Cdp" = some s →
        (atoi s = none →
          getVaultId logs = Except.error "failed to convert vault id to int") ∧
        (∀ v, atoi s = some v → getVaultId logs = Except.ok v))) ∧
    (∀ ds : List Char, ds ≠ [] → (∀ ch ∈ ds, ch.isDigit) →
      atoi (String.mk ds) =
        if (digitsVal ds : ℤ) < 2 ^ 63 then some ((digitsVal ds : ℤ)) else none) := by
  refine ⟨?_, ?_, fun ds hne hall => atoi_digit_string ds hne hall⟩
  · intro hnone
    induction logs with
    | nil => rfl
    | cons a ls ih =>
      simp only [findCdpmanager, List.find?_cons] at hnone
      by_cases hc : a.contract = "Cdpmanager"
      · rw [beq_iff_eq.mpr hc] at hnone
        simp at hnone
      · rw [beq_eq_false_iff_ne.mpr hc] at hnone
        simp only [getVaultId, hc, if_false]
        exact ih hnone
  · intro l hl
    induction logs with
    | nil => simp [findCdpmanager] at hl
    | cons a ls ih =>
      simp only [findCdpmanager, List.find?_cons] at hl
      by_cases hc : a.contract = "Cdpmanager"
      · rw [beq_iff_eq.mpr hc] at hl
        have ha : a = l := by simpa using hl
        subst ha
        refine ⟨?_, ?_⟩
        · intro hlook
          simp [getVaultId, hc, hlook]
        · intro s hs
          refine ⟨?_, ?_⟩
          · intro hat
            simp [getVaultId, hc, hs, hat]
          · intro v hat
            simp [getVaultId, hc, hs, hat]
      · rw [beq_eq_false_iff_ne.mpr hc] at hl
        have := ih hl
        simpa [getVaultId, hc] using this

/-- Witness for C10 (amended): logs without a `Cdpmanager` entry give
vault id 0 with no error, and a `Cdpmanager` entry with payload
`{"Cdp": "42"}` gives vault id 42. -/
theorem getVaultId_characterization_witness :
    getVaultId [] = Except.ok 0 ∧
    getVaultId [⟨"Vat", [("x", "1")]⟩] = Except.ok 0 ∧
    getVaultId [⟨"Cdpmanager", [("Cdp", "42")]⟩] = Except.ok 42 := by
  refine ⟨?_, ?_, ?_⟩
  · exact (getVaultId_characterization []).1 rfl
  · exact (getVaultId_characterization [⟨"Vat", [("x", "1")]⟩]).1 rfl
  · exact ((((getVaultId_characterization [⟨"Cdpmanager", [("Cdp", "42")]⟩]).2.1
      ⟨"Cdpmanager", [("Cdp", "42")]⟩ rfl).2 "42" rfl).2 42 (by decide))

/-- Counterexample for C10: `"9223372036854775808"` (`2^63`) is a decimal
integer, yet `getVaultId` on a `Cdpmanager` entry carrying it under
`"Cdp"` returns the conversion error, because `strconv.Atoi` fails with
`ErrRange` outside the signed 64-bit range.  This refutes the claim's
"error exactly when the value is not a decimal integer". -/
theorem getVaultId_range_counterexample :
    "9223372036854775808".toList.all Char.isDigit = true ∧
    "9223372036854775808".toList ≠ [] ∧
    getVaultId [⟨"Cdpmanager", [("Cdp", "9223372036854775808")]⟩] =
      Except.error "failed to convert vault id to int" := by
  exact ⟨by decide, by decide, rfl⟩
